import Mathlib

/-
Verification development for the go-webapiclient repository.

The current implementation in client.go is embedded shallowly:
Go strings become lists of characters, Go maps with string keys become
association lists carried in a chosen iteration order (Go specifies no
iteration order for maps, so theorems quantify over that order),
byte slices become lists of naturals, and the side effects of one call
to ClientImpl.Do (invoking the edit hook, invoking the injected
transport, reading the response stream, closing it via defer) are
recorded as an explicit event trace.

Library functions from the Go standard library that the client calls
(strings.ToLower, strings.HasPrefix, slices.Contains,
textproto.CanonicalMIMEHeaderKey, http.Header.Add / Get, net/url
parsing and reference resolution) are transliterated here from their
documented semantics; strings.ToLower is modelled by per-character
ASCII lowering, which agrees with Go on all ASCII input (no claim in
scope involves non-ASCII header values). The net/url model is
restricted to URLs without userinfo, query, fragment, opaque part or
percent-escapes, which covers every address the claims mention.
-/

namespace WebApiClient

/-- GoString models a Go string value as its list of characters. -/
abbrev GoString := List Char

/-- ByteSeq models a Go byte slice value. -/
abbrev ByteSeq := List Nat

/-- Characters of a Lean string literal, used to write Go string literals. -/
def goStr (s : String) : GoString := s.data

/-- Per-character model of strings.ToLower (ASCII-faithful). -/
def toLowerStr (s : GoString) : GoString := s.map Char.toLower

/-- Token bytes allowed in an HTTP header field name or method, after
net/textproto validHeaderFieldByte; the codes 39 and 96 are the
apostrophe and the backtick. -/
def isTokenByte (c : Char) : Bool :=
  c.isAlpha || c.isDigit || c.toNat = 39 || c.toNat = 96 ||
    "!#$%&*+-.^_|~".toList.contains c

/-- Case normalization pass of textproto canonicalMIMEHeaderKey: a letter is
uppercased when it starts the key or follows a hyphen and lowercased
otherwise. -/
def canonChars : Bool → GoString → GoString
  | _, [] => []
  | upper, c :: cs =>
    let c2 := if upper then c.toUpper else c.toLower
    c2 :: canonChars (c2 == '-') cs

/-- Model of textproto.CanonicalMIMEHeaderKey: keys containing a byte that is
not a valid header field byte are returned unchanged, all others are
case-normalized. -/
def canonicalHeaderKey (k : GoString) : GoString :=
  if k.all isTokenByte then canonChars true k else k

/-- Header models Go http.Header, a map from names to value lists; the list
order is the map's iteration order. -/
abbrev Header := List (GoString × List GoString)

/-- Lookup of a header map entry by exact key. -/
def lookupH (C : GoString) : Header → Option (List GoString)
  | [] => none
  | p :: rest => if p.1 = C then some p.2 else lookupH C rest

/-- Model of the Go map update h[C] = append(h[C], v): the entry for C gets
the value appended, and a missing entry is created. -/
def mapAppendValue : Header → GoString → GoString → Header
  | [], C, v => [(C, [v])]
  | p :: rest, C, v =>
    if p.1 = C then (p.1, p.2 ++ [v]) :: rest else p :: mapAppendValue rest C v

/-- Model of http.Header.Add: the key is canonicalized and the value appended
to that key's entry. -/
def headerAdd (h : Header) (key value : GoString) : Header :=
  mapAppendValue h (canonicalHeaderKey key) value

/-- Model of http.Header.Get: the lookup key is canonicalized and the first
value of the entry is returned, or the empty string. -/
def headerGet (h : Header) (key : GoString) : GoString :=
  match lookupH (canonicalHeaderKey key) h with
  | some (v :: _) => v
  | _ => []

/-- Header state after the builder's loop over the request headers, in the
given map iteration order: every value of every entry is added via
http.Header.Add. -/
def buildHeader (hs : Header) : Header :=
  hs.foldl (fun h kv => kv.2.foldl (fun h2 v => headerAdd h2 kv.1 v) h) []

/-- Values supplied, across the given iteration order, under all keys that
canonicalize to C. -/
def suppliedValues (hs : Header) (C : GoString) : List GoString :=
  ((hs.filter (fun kv => canonicalHeaderKey kv.1 = C)).map Prod.snd).flatten

/-- Append of a value list onto an optional entry, creating the entry when a
value arrives and it is absent. -/
def optAppend : Option (List GoString) → List GoString → Option (List GoString)
  | o, [] => o
  | some xs, l => some (xs ++ l)
  | none, l => some l

theorem optAppend_nil (o : Option (List GoString)) : optAppend o [] = o := by
  cases o <;> rfl

theorem optAppend_assoc (o : Option (List GoString)) (l1 l2 : List GoString) :
    optAppend (optAppend o l1) l2 = optAppend o (l1 ++ l2) := by
  cases l1 with
  | nil => cases l2 <;> cases o <;> simp [optAppend]
  | cons x xs => cases l2 <;> cases o <;> simp [optAppend]

theorem lookupH_mapAppendValue (h : Header) (K v C : GoString) :
    lookupH C (mapAppendValue h K v) =
      if K = C then optAppend (lookupH C h) [v] else lookupH C h := by
  induction h with
  | nil =>
    by_cases hkc : K = C <;> simp [mapAppendValue, lookupH, hkc, optAppend]
  | cons p rest ih =>
    by_cases hp : p.1 = K
    · by_cases hkc : K = C
      · simp [mapAppendValue, lookupH, hp, hkc, hp.trans hkc, optAppend]
      · have hpc : ¬ p.1 = C := fun hh => hkc (hp.symm.trans hh)
        simp [mapAppendValue, lookupH, hp, hkc, hpc]
    · by_cases hpc : p.1 = C
      · have hkc : ¬ K = C := fun hh => hp (hpc.trans hh.symm)
        have hck : ¬ C = K := fun hh => hkc hh.symm
        simp [mapAppendValue, lookupH, hp, hpc, hkc, hck]
      · simp [mapAppendValue, lookupH, hp, hpc, ih]

theorem lookupH_headerAdd (h : Header) (key v C : GoString) :
    lookupH C (headerAdd h key v) =
      if canonicalHeaderKey key = C then optAppend (lookupH C h) [v]
      else lookupH C h :=
  lookupH_mapAppendValue h (canonicalHeaderKey key) v C

theorem lookupH_foldl_values (key C : GoString) (vs : List GoString) :
    ∀ h : Header,
      lookupH C (vs.foldl (fun h2 v => headerAdd h2 key v) h) =
        if canonicalHeaderKey key = C then optAppend (lookupH C h) vs
        else lookupH C h := by
  induction vs with
  | nil =>
    intro h
    by_cases hkc : canonicalHeaderKey key = C <;> simp [hkc, optAppend_nil]
  | cons v rest ih =>
    intro h
    by_cases hkc : canonicalHeaderKey key = C
    · simp only [List.foldl_cons, ih, hkc, if_pos, lookupH_headerAdd,
        optAppend_assoc, List.singleton_append]
    · simp only [List.foldl_cons, ih, hkc, if_neg, not_false_iff,
        lookupH_headerAdd]

theorem suppliedValues_cons (kv : GoString × List GoString) (rest : Header)
    (C : GoString) :
    suppliedValues (kv :: rest) C =
      (if canonicalHeaderKey kv.1 = C then kv.2 else []) ++
        suppliedValues rest C := by
  by_cases hc : canonicalHeaderKey kv.1 = C <;>
    simp [suppliedValues, List.filter_cons, hc]

theorem lookupH_buildHeader_fold (C : GoString) (hs : Header) :
    ∀ h : Header,
      lookupH C
          (hs.foldl (fun hh kv => kv.2.foldl (fun h2 v => headerAdd h2 kv.1 v) hh) h) =
        optAppend (lookupH C h) (suppliedValues hs C) := by
  induction hs with
  | nil =>
    intro h
    simp [suppliedValues, optAppend_nil]
  | cons kv rest ih =>
    intro h
    rw [List.foldl_cons, ih, lookupH_foldl_values, suppliedValues_cons]
    by_cases hc : canonicalHeaderKey kv.1 = C
    · simp [hc, optAppend_assoc]
    · simp [hc]

theorem lookupH_buildHeader (hs : Header) (C : GoString) :
    lookupH C (buildHeader hs) =
      if suppliedValues hs C = [] then none else some (suppliedValues hs C) := by
  have h0 := lookupH_buildHeader_fold C hs []
  rw [buildHeader, h0]
  cases hsv : suppliedValues hs C <;> simp [lookupH, optAppend]

theorem lookupH_none_iff (h : Header) (C : GoString) :
    lookupH C h = none ↔ C ∉ h.map Prod.fst := by
  induction h with
  | nil => simp [lookupH]
  | cons p rest ih =>
    by_cases hp : p.1 = C
    · simp [lookupH, hp]
    · rw [lookupH, if_neg hp, ih, List.map_cons, List.mem_cons]
      constructor
      · intro hnot hor
        cases hor with
        | inl h1 => exact hp h1.symm
        | inr h2 => exact hnot h2
      · intro hnot hmem
        exact hnot (Or.inr hmem)

theorem keys_mapAppendValue (h : Header) (K v : GoString) :
    (mapAppendValue h K v).map Prod.fst =
      if (lookupH K h).isSome then h.map Prod.fst
      else h.map Prod.fst ++ [K] := by
  induction h with
  | nil => simp [mapAppendValue, lookupH]
  | cons p rest ih =>
    by_cases hp : p.1 = K
    · simp [mapAppendValue, lookupH, hp]
    · simp only [mapAppendValue, hp, if_neg, not_false_iff, List.map_cons, ih,
        lookupH]
      by_cases hs : (lookupH K rest).isSome <;> simp [hs, hp]

theorem nodup_keys_headerAdd (h : Header) (key v : GoString)
    (hnd : (h.map Prod.fst).Nodup) :
    ((headerAdd h key v).map Prod.fst).Nodup := by
  rw [headerAdd, keys_mapAppendValue]
  by_cases hs : (lookupH (canonicalHeaderKey key) h).isSome
  · simpa [hs]
  · have hnone : lookupH (canonicalHeaderKey key) h = none := by
      cases hl : lookupH (canonicalHeaderKey key) h
      · rfl
      · rw [hl] at hs; simp at hs
    have hnotmem := (lookupH_none_iff h (canonicalHeaderKey key)).mp hnone
    simp only [hs, if_neg, not_false_iff]
    refine List.Nodup.append hnd (List.nodup_singleton _) ?_
    intro x hx hxk
    rw [List.mem_singleton] at hxk
    subst hxk
    exact hnotmem hx

theorem nodup_keys_foldl_values (key : GoString) (vs : List GoString) :
    ∀ h : Header, (h.map Prod.fst).Nodup →
      (((vs.foldl (fun h2 v => headerAdd h2 key v) h)).map Prod.fst).Nodup := by
  induction vs with
  | nil => intro h hnd; simpa using hnd
  | cons v rest ih =>
    intro h hnd
    exact ih (headerAdd h key v) (nodup_keys_headerAdd h key v hnd)

theorem nodup_keys_buildHeader (hs : Header) :
    ((buildHeader hs).map Prod.fst).Nodup := by
  rw [buildHeader]
  have hgen : ∀ h : Header, (h.map Prod.fst).Nodup →
      ((hs.foldl (fun hh kv => kv.2.foldl (fun h2 v => headerAdd h2 kv.1 v) hh) h).map
        Prod.fst).Nodup := by
    induction hs with
    | nil => intro h hnd; simpa using hnd
    | cons kv rest ih =>
      intro h hnd
      exact ih _ (nodup_keys_foldl_values kv.1 kv.2 h hnd)
  exact hgen [] (by simp)

/-- URL models net/url URL restricted to scheme, host and path (no userinfo,
query, fragment, opaque part or percent-escapes). -/
structure URL where
  scheme : GoString
  host : GoString
  path : GoString
  deriving Repr, DecidableEq

/-- Characters before the first occurrence of c, the whole string when c is
absent. -/
def takeUntil (c : Char) : GoString → GoString
  | [] => []
  | x :: xs => if x = c then [] else x :: takeUntil c xs

/-- Character allowed after the first position of a URL scheme. -/
def isSchemeChar (c : Char) : Bool :=
  c.isAlpha || c.isDigit || c = '+' || c = '-' || c = '.'

/-- Model of url.Parse on the restricted grammar: either
scheme://host[/path] or a scheme-less relative reference; inputs outside
this fragment (opaque URLs, userinfo, query, fragment, escapes) are
rejected as a parse error. -/
def parseURL (s : GoString) : Option URL :=
  let sch := takeUntil ':' s
  if sch ≠ [] ∧ sch ≠ s ∧ sch.all isSchemeChar ∧
      ((sch.head?.map Char.isAlpha).getD false) then
    let rest := s.drop (sch.length + 1)
    if rest.take 2 = goStr "//" then
      let hostpath := rest.drop 2
      let host := takeUntil '/' hostpath
      some { scheme := sch, host := host, path := hostpath.drop host.length }
    else none
  else if s.contains ':' then none
  else some { scheme := [], host := [], path := s }

/-- Prefix of the string up to and including its last slash, empty when there
is no slash: base[0 : strings.LastIndex(base, slash)+1]. -/
def keepThroughLastSlash : GoString → GoString
  | [] => []
  | c :: cs =>
    if cs.contains '/' then c :: keepThroughLastSlash cs
    else if c = '/' then ['/'] else []

/-- Split on every slash, as the strings.Cut loop of net/url resolvePath
enumerates segments; always returns at least one segment. -/
def splitSlash : GoString → List GoString
  | [] => [[]]
  | c :: cs =>
    if c = '/' then [] :: splitSlash cs
    else
      match splitSlash cs with
      | s :: rest => (c :: s) :: rest
      | [] => [[c]]

/-- One iteration of the segment loop of net/url resolvePath: the pair is the
output buffer (always starting with a slash) and the first flag. -/
def resolveSeg : GoString × Bool → GoString → GoString × Bool
  | (dst, first), elem =>
    if elem = goStr "." then (dst, false)
    else if elem = goStr ".." then
      let str := dst.drop 1
      if str.contains '/' then ('/' :: (keepThroughLastSlash str).dropLast, first)
      else (['/'], true)
    else ((if first then dst else dst ++ ['/']) ++ elem, false)

/-- Model of net/url resolvePath: merge the reference path with the base path
and remove dot segments. -/
def resolvePath (base ref : GoString) : GoString :=
  let full :=
    if ref = [] then base
    else if ref.head? = some '/' then ref
    else keepThroughLastSlash base ++ ref
  if full = [] then []
  else
    let segs := splitSlash full
    let out := segs.foldl resolveSeg (['/'], true)
    let lastSeg := segs.getLastD []
    let dst := if lastSeg = goStr "." ∨ lastSeg = goStr ".." then out.1 ++ ['/'] else out.1
    if dst.take 2 = goStr "//" then dst.drop 2 else dst

/-- Model of URL.ResolveReference on the restricted grammar: a reference with
its own scheme or host wins, otherwise scheme and host come from the base and
the paths are merged by resolvePath. -/
def resolveReference (u ref : URL) : URL :=
  if ref.scheme ≠ [] ∨ ref.host ≠ [] then
    { scheme := if ref.scheme = [] then u.scheme else ref.scheme,
      host := ref.host, path := resolvePath ref.path [] }
  else
    { scheme := u.scheme, host := u.host, path := resolvePath u.path ref.path }

/-- Model of URL.String on the restricted grammar, including the slash that is
inserted between a host and a path that does not start with one. -/
def urlString (u : URL) : GoString :=
  (if u.scheme ≠ [] then u.scheme ++ [':'] else []) ++
    (if u.host ≠ [] then goStr "//" ++ u.host else []) ++
    (if u.path ≠ [] ∧ u.path.head? ≠ some '/' ∧ u.host ≠ [] then ['/'] else []) ++
    u.path

/-- Request mirrors the Request struct of client.go; headers carry the Go map
in a chosen iteration order, body is nil (none) or a byte slice. -/
structure Request where
  method : GoString
  path : GoString
  headers : Header
  body : Option ByteSeq
  expectedStatusCodes : List Int
  expectedContentTypes : List GoString
  deriving Repr, DecidableEq

/-- Response mirrors the Response struct of client.go. -/
structure Response where
  statusCode : Int
  headers : Header
  body : ByteSeq
  deriving Repr, DecidableEq

/-- HTTPRequest models the built http.Request: method, the resolved address
as a string, the header map and the attached body. -/
structure HTTPRequest where
  method : GoString
  url : GoString
  header : Header
  body : Option ByteSeq
  deriving Repr, DecidableEq

instance exceptDecEq {ε α : Type} [DecidableEq ε] [DecidableEq α] :
    DecidableEq (Except ε α) := fun a b =>
  match a, b with
  | .error e1, .error e2 =>
    if h : e1 = e2 then isTrue (by rw [h])
    else isFalse (by intro hh; cases hh; exact h rfl)
  | .error _, .ok _ => isFalse (by intro hh; cases hh)
  | .ok _, .error _ => isFalse (by intro hh; cases hh)
  | .ok v1, .ok v2 =>
    if h : v1 = v2 then isTrue (by rw [h])
    else isFalse (by intro hh; cases hh; exact h rfl)

/-- HTTPResponse models the http.Response handed back by the injected
transport; bodyStream is the predetermined outcome of reading the response
stream to completion with io.ReadAll. -/
structure HTTPResponse where
  statusCode : Int
  headers : Header
  bodyStream : Except GoString ByteSeq
  deriving Repr, DecidableEq

/-- Err models the error value returned by Do, by failure site; the payloads
are the diagnostic data the Go error strings carry. -/
inductive Err where
  | address
  | invalidMethod
  | edit (msg : GoString)
  | transport (msg : GoString)
  | unexpectedStatus (code : Int)
  | unexpectedContentType (value : GoString)
  | bodyRead (msg : GoString)
  deriving Repr, DecidableEq

/-- EditRequestFunc models the edit hook: it may mutate the built request
(returned on success) or report an error message. -/
abbrev EditRequestFunc := HTTPRequest → Except GoString HTTPRequest

/-- DoFunc models the injected transport function. -/
abbrev DoFunc := HTTPRequest → Except GoString HTTPResponse

/-- Ev records the observable effects of one call to Do, in order. -/
inductive Ev where
  | editCalled
  | transportCalled
  | bodyRead
  | bodyClosed
  deriving Repr, DecidableEq

/-- DoOutcome is the pair of values Do returns, mirroring Go's
(*Response, error), together with the event trace of the call. -/
structure DoOutcome where
  response : Option Response
  error : Option Err
  trace : List Ev
  deriving Repr, DecidableEq

/-- Model of net/http validMethod: non-empty and token bytes only. -/
def validMethod (m : GoString) : Bool := !m.isEmpty && m.all isTokenByte

/-- Method after http.NewRequestWithContext defaults the empty method to GET. -/
def effectiveMethod (request : Request) : GoString :=
  if request.method = [] then goStr "GET" else request.method

/-- Body attached to the outgoing request, mirroring the requestBody local of
ClientImpl.buildHTTPRequest: only a non-GET method with a non-nil body
attaches one. -/
def requestBodyFor (request : Request) : Option ByteSeq :=
  if request.method ≠ goStr "GET" ∧ request.body ≠ none then request.body
  else none

/-- Model of ClientImpl.buildHTTPRequest: parse the base address, resolve the
request path against it, construct the request and add every supplied
header. -/
def buildHTTPRequest (baseURL : GoString) (request : Request) :
    Except Err HTTPRequest :=
  match parseURL baseURL with
  | none => .error .address
  | some base =>
    match parseURL request.path with
    | none => .error .address
    | some ref =>
      let requestURL := resolveReference base ref
      if validMethod (effectiveMethod request) then
        .ok { method := effectiveMethod request, url := urlString requestURL,
              header := buildHeader request.headers,
              body := requestBodyFor request }
      else .error .invalidMethod

/-- Condition of the status check of ClientImpl.validateResponse: a non-empty
allow-list that does not contain the received status code. -/
def statusRejected (request : Request) (httpResponse : HTTPResponse) : Prop :=
  0 < request.expectedStatusCodes.length ∧
    ¬ request.expectedStatusCodes.contains httpResponse.statusCode

instance (request : Request) (httpResponse : HTTPResponse) :
    Decidable (statusRejected request httpResponse) := by
  unfold statusRejected; infer_instance

/-- Predicate of the slices.ContainsFunc closure in validateResponse:
strings.HasPrefix(strings.ToLower(contentType), strings.ToLower(p)) for some
declared p. -/
def anyContentTypeMatch (cts : List GoString) (contentType : GoString) : Bool :=
  cts.any (fun p => (toLowerStr p).isPrefixOf (toLowerStr contentType))

/-- Condition of the content-type check of ClientImpl.validateResponse: a
non-empty allow-list none of whose entries passes the lowered prefix test
against the received Content-Type value. -/
def contentTypeRejected (request : Request) (httpResponse : HTTPResponse) : Prop :=
  0 < request.expectedContentTypes.length ∧
    ¬ anyContentTypeMatch request.expectedContentTypes
        (headerGet httpResponse.headers (goStr "Content-Type"))

instance (request : Request) (httpResponse : HTTPResponse) :
    Decidable (contentTypeRejected request httpResponse) := by
  unfold contentTypeRejected; infer_instance

/-- Model of ClientImpl.validateResponse: the status check runs first, then
the content-type check; nil means both passed. -/
def validateResponse (httpResponse : HTTPResponse) (request : Request) :
    Option Err :=
  if statusRejected request httpResponse then
    some (.unexpectedStatus httpResponse.statusCode)
  else if contentTypeRejected request httpResponse then
    some (.unexpectedContentType
      (headerGet httpResponse.headers (goStr "Content-Type")))
  else none

/-- Model of ClientImpl.readResponse: read the whole stream, then snapshot
status, headers and body. -/
def readResponse (httpResponse : HTTPResponse) : Option Response × Option Err :=
  match httpResponse.bodyStream with
  | .error msg => (none, some (.bodyRead msg))
  | .ok responseBody =>
    (some { statusCode := httpResponse.statusCode,
            headers := httpResponse.headers, body := responseBody }, none)

/-- Steps of Do from the transport call on, given the events ev0 already
emitted; the deferred Body.Close fires once on every exit path after a
successful transport call. -/
def transportPhase (dof : DoFunc) (httpRequest : HTTPRequest)
    (request : Request) (ev0 : List Ev) : DoOutcome :=
  match dof httpRequest with
  | .error msg => ⟨none, some (.transport msg), ev0 ++ [.transportCalled]⟩
  | .ok httpResponse =>
    match validateResponse httpResponse request with
    | some e => ⟨none, some e, ev0 ++ [.transportCalled, .bodyClosed]⟩
    | none =>
      let re := readResponse httpResponse
      ⟨re.1, re.2, ev0 ++ [.transportCalled, .bodyRead, .bodyClosed]⟩

/-- Model of ClientImpl.Do: build, optionally edit, send, validate, read. -/
def doCall (baseURL : GoString) (dof : DoFunc) (request : Request)
    (edit : Option EditRequestFunc) : DoOutcome :=
  match buildHTTPRequest baseURL request with
  | .error e => ⟨none, some e, []⟩
  | .ok httpRequest =>
    match edit with
    | none => transportPhase dof httpRequest request []
    | some f =>
      match f httpRequest with
      | .error msg => ⟨none, some (.edit msg), [.editCalled]⟩
      | .ok edited => transportPhase dof edited request [.editCalled]

/-- Ways a call reaches the transport step: the request built, and the edit
hook was absent or succeeded; httpRequest is the request handed to the
transport and ev0 the events already emitted. -/
inductive ReachesTransport (baseURL : GoString) (request : Request) :
    Option EditRequestFunc → HTTPRequest → List Ev → Prop where
  | noEdit (hr : HTTPRequest) :
      buildHTTPRequest baseURL request = .ok hr →
      ReachesTransport baseURL request none hr []
  | withEdit (f : EditRequestFunc) (hr hr2 : HTTPRequest) :
      buildHTTPRequest baseURL request = .ok hr →
      f hr = .ok hr2 →
      ReachesTransport baseURL request (some f) hr2 [.editCalled]

theorem reaches_doCall {baseURL : GoString} {request : Request}
    {edit : Option EditRequestFunc} {hr2 : HTTPRequest} {ev0 : List Ev}
    (h : ReachesTransport baseURL request edit hr2 ev0) (dof : DoFunc) :
    doCall baseURL dof request edit = transportPhase dof hr2 request ev0 := by
  cases h with
  | noEdit hr hb => simp [doCall, hb]
  | withEdit f hr hr2 hb hf => simp [doCall, hb, hf]

theorem reaches_ev0 {baseURL : GoString} {request : Request}
    {edit : Option EditRequestFunc} {hr2 : HTTPRequest} {ev0 : List Ev}
    (h : ReachesTransport baseURL request edit hr2 ev0) :
    ev0 = [] ∨ ev0 = [Ev.editCalled] := by
  cases h with
  | noEdit hr hb => exact Or.inl rfl
  | withEdit f hr hr2 hb hf => exact Or.inr rfl

/-- Specification-side notion of a case-insensitive prefix: the lowered
characters of p form a prefix of the lowered characters of s. -/
def cipMatch (p s : GoString) : Prop := toLowerStr p <+: toLowerStr s

/-- Specification-side notion used by the content-type claim: at least one
declared prefix is a case-insensitive prefix of the actual value. -/
def anyCIPrefixMatch (cts : List GoString) (s : GoString) : Prop :=
  ∃ p ∈ cts, cipMatch p s

theorem anyContentTypeMatch_iff (cts : List GoString) (s : GoString) :
    anyContentTypeMatch cts s = true ↔ anyCIPrefixMatch cts s := by
  simp [anyContentTypeMatch, anyCIPrefixMatch, cipMatch]

theorem contentTypeRejected_iff (request : Request) (resp : HTTPResponse)
    (hne : 0 < request.expectedContentTypes.length) :
    contentTypeRejected request resp ↔
      ¬ anyCIPrefixMatch request.expectedContentTypes
          (headerGet resp.headers (goStr "Content-Type")) := by
  unfold contentTypeRejected
  rw [← anyContentTypeMatch_iff]
  constructor
  · rintro ⟨-, hm⟩
    exact hm
  · intro hm
    exact ⟨hne, hm⟩

theorem validateResponse_of_statusRejected {request : Request}
    {resp : HTTPResponse} (hs : statusRejected request resp) :
    validateResponse resp request = some (.unexpectedStatus resp.statusCode) := by
  unfold validateResponse
  rw [if_pos hs]

theorem validateResponse_of_ctRejected {request : Request}
    {resp : HTTPResponse} (hns : ¬ statusRejected request resp)
    (hc : contentTypeRejected request resp) :
    validateResponse resp request =
      some (.unexpectedContentType
        (headerGet resp.headers (goStr "Content-Type"))) := by
  unfold validateResponse
  rw [if_neg hns, if_pos hc]

theorem validateResponse_none_iff (request : Request) (resp : HTTPResponse) :
    validateResponse resp request = none ↔
      ¬ statusRejected request resp ∧ ¬ contentTypeRejected request resp := by
  unfold validateResponse
  by_cases h1 : statusRejected request resp <;>
    by_cases h2 : contentTypeRejected request resp <;> simp [h1, h2]

theorem transportPhase_error {dof : DoFunc} {hr2 : HTTPRequest}
    {request : Request} {resp : HTTPResponse} (ev0 : List Ev)
    (h3 : dof hr2 = .ok resp) :
    (transportPhase dof hr2 request ev0).error =
      match validateResponse resp request with
      | some e => some e
      | none => (readResponse resp).2 := by
  simp only [transportPhase, h3]
  cases validateResponse resp request <;> rfl

theorem transportPhase_error_of_validate {dof : DoFunc} {hr2 : HTTPRequest}
    {request : Request} {resp : HTTPResponse} (ev0 : List Ev) {e : Err}
    (h3 : dof hr2 = .ok resp) (hv : validateResponse resp request = some e) :
    (transportPhase dof hr2 request ev0).error = some e := by
  simp [transportPhase, h3, hv]

/-- C1: for every call to Do whose ExpectedContentTypes list is non-empty and
whose status validation passes, content-type validation succeeds if and only
if at least one declared prefix is a case-insensitive prefix of the
response's Content-Type header value, and otherwise Do fails with the
unexpected-content-type error carrying the actual value. -/
theorem do_content_type_validation
    (baseURL : GoString) (dof : DoFunc) (request : Request)
    (edit : Option EditRequestFunc) (hr2 : HTTPRequest) (ev0 : List Ev)
    (resp : HTTPResponse)
    (h : ReachesTransport baseURL request edit hr2 ev0)
    (h3 : dof hr2 = .ok resp)
    (hstatus : ¬ statusRejected request resp)
    (hne : 0 < request.expectedContentTypes.length) :
    (validateResponse resp request = none ↔
      anyCIPrefixMatch request.expectedContentTypes
        (headerGet resp.headers (goStr "Content-Type"))) ∧
    (¬ anyCIPrefixMatch request.expectedContentTypes
        (headerGet resp.headers (goStr "Content-Type")) →
      (doCall baseURL dof request edit).error =
        some (.unexpectedContentType
          (headerGet resp.headers (goStr "Content-Type")))) := by
  constructor
  · rw [validateResponse_none_iff]
    rw [contentTypeRejected_iff request resp hne]
    constructor
    · rintro ⟨-, hm⟩
      exact not_not.mp hm
    · intro hm
      exact ⟨hstatus, not_not.mpr hm⟩
  · intro hm
    have hctr : contentTypeRejected request resp :=
      (contentTypeRejected_iff request resp hne).mpr hm
    rw [reaches_doCall h dof]
    exact transportPhase_error_of_validate ev0 h3
      (validateResponse_of_ctRejected hstatus hctr)

def baseEx : GoString := goStr "http://example.com"

def reqCT : Request :=
  { method := goStr "GET", path := goStr "/test", headers := [], body := none,
    expectedStatusCodes := [], expectedContentTypes := [goStr "application/json"] }

def respCT : HTTPResponse :=
  { statusCode := 200,
    headers := [(goStr "Content-Type", [goStr "Application/JSON; charset=utf-8"])],
    bodyStream := .ok [] }

def hrCT : HTTPRequest :=
  { method := goStr "GET", url := goStr "http://example.com/test",
    header := [], body := none }

def dofCT : DoFunc := fun _ => .ok respCT

theorem do_content_type_validation_witness :
    (validateResponse respCT reqCT = none ↔
      anyCIPrefixMatch reqCT.expectedContentTypes
        (headerGet respCT.headers (goStr "Content-Type"))) ∧
    (¬ anyCIPrefixMatch reqCT.expectedContentTypes
        (headerGet respCT.headers (goStr "Content-Type")) →
      (doCall baseEx dofCT reqCT none).error =
        some (.unexpectedContentType
          (headerGet respCT.headers (goStr "Content-Type")))) :=
  do_content_type_validation baseEx dofCT reqCT none hrCT [] respCT
    (ReachesTransport.noEdit hrCT (by decide)) rfl (by decide) (by decide)

/-- C3: for every call reaching the response whose ExpectedStatusCodes list is
non-empty and does not contain the received status code, Do fails with the
unexpected-status error carrying the actual code; and an empty
ExpectedStatusCodes list never produces an unexpected-status error. -/
theorem do_status_validation
    (baseURL : GoString) (dof : DoFunc) (request : Request)
    (edit : Option EditRequestFunc) (hr2 : HTTPRequest) (ev0 : List Ev)
    (resp : HTTPResponse) (c : Int)
    (h : ReachesTransport baseURL request edit hr2 ev0)
    (h3 : dof hr2 = .ok resp) :
    (0 < request.expectedStatusCodes.length →
      ¬ request.expectedStatusCodes.contains resp.statusCode →
      (doCall baseURL dof request edit).error =
        some (.unexpectedStatus resp.statusCode)) ∧
    (request.expectedStatusCodes = [] →
      (doCall baseURL dof request edit).error ≠
        some (.unexpectedStatus c)) := by
  rw [reaches_doCall h dof]
  constructor
  · intro hlen hmem
    exact transportPhase_error_of_validate ev0 h3
      (validateResponse_of_statusRejected ⟨hlen, hmem⟩)
  · intro hempty
    have hnsr : ¬ statusRejected request resp := by
      simp [statusRejected, hempty]
    rw [transportPhase_error ev0 h3]
    cases hv : validateResponse resp request with
    | some e =>
      have he : e = .unexpectedContentType
          (headerGet resp.headers (goStr "Content-Type")) := by
        unfold validateResponse at hv
        rw [if_neg hnsr] at hv
        by_cases hc : contentTypeRejected request resp
        · rw [if_pos hc] at hv
          exact (Option.some.inj hv).symm
        · rw [if_neg hc] at hv
          cases hv
      subst he
      simp
    | none =>
      cases hb : resp.bodyStream <;> simp [readResponse, hb]

def reqS : Request :=
  { method := goStr "GET", path := goStr "/test", headers := [], body := none,
    expectedStatusCodes := [200], expectedContentTypes := [] }

def respS : HTTPResponse :=
  { statusCode := 500, headers := [], bodyStream := .ok [] }

def hrS : HTTPRequest :=
  { method := goStr "GET", url := goStr "http://example.com/test",
    header := [], body := none }

def dofS : DoFunc := fun _ => .ok respS

theorem do_status_validation_witness :
    (0 < reqS.expectedStatusCodes.length →
      ¬ reqS.expectedStatusCodes.contains respS.statusCode →
      (doCall baseEx dofS reqS none).error =
        some (.unexpectedStatus respS.statusCode)) ∧
    (reqS.expectedStatusCodes = [] →
      (doCall baseEx dofS reqS none).error ≠
        some (.unexpectedStatus 500)) :=
  do_status_validation baseEx dofS reqS none hrS [] respS 500
    (ReachesTransport.noEdit hrS (by decide)) rfl

theorem buildHTTPRequest_ok_shape {baseURL : GoString} {request : Request}
    {hr : HTTPRequest} (h : buildHTTPRequest baseURL request = .ok hr) :
    hr.method = effectiveMethod request ∧
    hr.header = buildHeader request.headers ∧
    hr.body = requestBodyFor request := by
  unfold buildHTTPRequest at h
  split at h
  · cases h
  · split at h
    · cases h
    · split at h
      · cases h
        exact ⟨rfl, rfl, rfl⟩
      · cases h

/-- C4: every request whose Method field is GET builds an outgoing HTTP
request that carries no body, even when the Body field is non-empty. -/
theorem build_get_has_no_body (baseURL : GoString) (request : Request)
    (hr : HTTPRequest) (h : buildHTTPRequest baseURL request = .ok hr)
    (hm : request.method = goStr "GET") : hr.body = none := by
  have hsh := (buildHTTPRequest_ok_shape h).2.2
  rw [hsh]
  simp [requestBodyFor, hm]

def reqG : Request :=
  { method := goStr "GET", path := goStr "/test", headers := [],
    body := some [1, 2, 3], expectedStatusCodes := [],
    expectedContentTypes := [] }

def hrG : HTTPRequest :=
  { method := goStr "GET", url := goStr "http://example.com/test",
    header := [], body := none }

theorem build_get_has_no_body_witness :
    buildHTTPRequest baseEx reqG = .ok hrG ∧ hrG.body = none :=
  ⟨by decide, build_get_has_no_body baseEx reqG hrG (by decide) (by decide)⟩

/-- C5: every request whose Method field is not GET and whose Body field is a
non-empty byte sequence builds an outgoing HTTP request whose attached body
is that byte sequence, byte for byte. -/
theorem build_non_get_preserves_body (baseURL : GoString) (request : Request)
    (hr : HTTPRequest) (bs : ByteSeq)
    (h : buildHTTPRequest baseURL request = .ok hr)
    (hm : request.method ≠ goStr "GET") (hb : request.body = some bs)
    (_hne : bs ≠ []) : hr.body = some bs := by
  have hsh := (buildHTTPRequest_ok_shape h).2.2
  rw [hsh, requestBodyFor, if_pos ⟨hm, by rw [hb]; simp⟩, hb]

def reqP : Request :=
  { method := goStr "POST", path := goStr "/test", headers := [],
    body := some [104, 105], expectedStatusCodes := [],
    expectedContentTypes := [] }

def hrP : HTTPRequest :=
  { method := goStr "POST", url := goStr "http://example.com/test",
    header := [], body := some [104, 105] }

theorem build_non_get_preserves_body_witness :
    buildHTTPRequest baseEx reqP = .ok hrP ∧ hrP.body = some [104, 105] :=
  ⟨by decide,
    build_non_get_preserves_body baseEx reqP hrP [104, 105] (by decide)
      (by decide) (by decide) (by decide)⟩

def reqPathOnly (p : String) : Request :=
  { method := goStr "GET", path := goStr p, headers := [], body := none,
    expectedStatusCodes := [], expectedContentTypes := [] }

/-- C6: the request path is resolved against the base address by standard
relative-reference URL resolution: an absolute path is attached to the base's
authority (base http://example.com with path /test gives
http://example.com/test), a relative path replaces the trailing segment of
the base path, and dot segments collapse — none of which plain string or
path concatenation would produce. -/
theorem build_resolves_path_by_reference :
    (buildHTTPRequest (goStr "http://example.com")
        (reqPathOnly "/test")).map HTTPRequest.url =
      .ok (goStr "http://example.com/test") ∧
    (buildHTTPRequest (goStr "http://example.com/a/b")
        (reqPathOnly "c")).map HTTPRequest.url =
      .ok (goStr "http://example.com/a/c") ∧
    (buildHTTPRequest (goStr "http://example.com/a/")
        (reqPathOnly "../b")).map HTTPRequest.url =
      .ok (goStr "http://example.com/b") := by
  exact ⟨by decide, by decide, by decide⟩

theorem transportPhase_err {dof : DoFunc} {hr2 : HTTPRequest}
    {request : Request} (ev0 : List Ev) {msg : GoString}
    (h3 : dof hr2 = .error msg) :
    transportPhase dof hr2 request ev0 =
      ⟨none, some (.transport msg), ev0 ++ [.transportCalled]⟩ := by
  simp only [transportPhase, h3]

theorem transportPhase_ok {dof : DoFunc} {hr2 : HTTPRequest}
    {request : Request} {resp : HTTPResponse} (ev0 : List Ev)
    (h3 : dof hr2 = .ok resp) :
    transportPhase dof hr2 request ev0 =
      match validateResponse resp request with
      | some e => ⟨none, some e, ev0 ++ [.transportCalled, .bodyClosed]⟩
      | none => ⟨(readResponse resp).1, (readResponse resp).2,
          ev0 ++ [.transportCalled, .bodyRead, .bodyClosed]⟩ := by
  simp only [transportPhase, h3]

theorem transportPhase_trace (dof : DoFunc) (hr2 : HTTPRequest)
    (request : Request) (ev0 : List Ev) :
    ∃ tail, (transportPhase dof hr2 request ev0).trace =
      ev0 ++ (Ev.transportCalled :: tail) := by
  cases hdo : dof hr2 with
  | error msg =>
    rw [transportPhase_err ev0 hdo]
    exact ⟨[], rfl⟩
  | ok resp =>
    rw [transportPhase_ok ev0 hdo]
    cases hv : validateResponse resp request with
    | some e => exact ⟨[.bodyClosed], rfl⟩
    | none => exact ⟨[.bodyRead, .bodyClosed], rfl⟩

/-- C2: when the request builds, a present edit hook that reports an error
makes Do return that error as an edit error and the transport function is
never invoked; and on every such call the hook invocation is the first
observable event, before any transport call. -/
theorem do_edit_error_aborts_transport
    (baseURL : GoString) (dof : DoFunc) (request : Request)
    (f : EditRequestFunc) (hr : HTTPRequest) (msg : GoString)
    (h1 : buildHTTPRequest baseURL request = .ok hr) :
    (f hr = .error msg →
      (doCall baseURL dof request (some f)).error = some (.edit msg) ∧
      Ev.transportCalled ∉ (doCall baseURL dof request (some f)).trace) ∧
    (doCall baseURL dof request (some f)).trace.head? = some Ev.editCalled := by
  constructor
  · intro hf
    simp [doCall, h1, hf]
  · cases hf : f hr with
    | error m => simp [doCall, h1, hf]
    | ok edited =>
      have hd : doCall baseURL dof request (some f) =
          transportPhase dof edited request [Ev.editCalled] := by
        simp [doCall, h1, hf]
      rw [hd]
      obtain ⟨tail, ht⟩ := transportPhase_trace dof edited request [Ev.editCalled]
      rw [ht]
      rfl

def editErrFn : EditRequestFunc := fun _ => .error (goStr "edit failed")

def reqE : Request := reqPathOnly "/test"

theorem do_edit_error_aborts_transport_witness :
    (editErrFn hrG = .error (goStr "edit failed") →
      (doCall baseEx dofS reqE (some editErrFn)).error =
        some (.edit (goStr "edit failed")) ∧
      Ev.transportCalled ∉ (doCall baseEx dofS reqE (some editErrFn)).trace) ∧
    (doCall baseEx dofS reqE (some editErrFn)).trace.head? =
      some Ev.editCalled :=
  do_edit_error_aborts_transport baseEx dofS reqE editErrFn hrG
    (goStr "edit failed") (by decide)

/-- C8: on every call to Do in which the transport function returns a
response, the response body stream is closed exactly once before Do returns,
whichever exit path is taken afterwards. -/
theorem do_closes_body_exactly_once
    (baseURL : GoString) (dof : DoFunc) (request : Request)
    (edit : Option EditRequestFunc) (hr2 : HTTPRequest) (ev0 : List Ev)
    (resp : HTTPResponse)
    (h : ReachesTransport baseURL request edit hr2 ev0)
    (h3 : dof hr2 = .ok resp) :
    (doCall baseURL dof request edit).trace.count Ev.bodyClosed = 1 := by
  rw [reaches_doCall h dof]
  have hev0 : ev0.count Ev.bodyClosed = 0 := by
    rcases reaches_ev0 h with h0 | h0 <;> rw [h0] <;> rfl
  rw [transportPhase_ok ev0 h3]
  cases hv : validateResponse resp request <;>
    simp [List.count_append, List.count_cons, hev0]

theorem do_closes_body_exactly_once_witness :
    (doCall baseEx dofS reqS none).trace.count Ev.bodyClosed = 1 :=
  do_closes_body_exactly_once baseEx dofS reqS none hrS [] respS
    (ReachesTransport.noEdit hrS (by decide)) rfl

/-- C9: on every call reaching the response, the body is read exactly when
both validations pass, a validation failure is returned as the call's error
with the body never read, and the status check precedes the content-type
check — when both reject, the unexpected-status error wins. -/
theorem do_validation_before_body_read
    (baseURL : GoString) (dof : DoFunc) (request : Request)
    (edit : Option EditRequestFunc) (hr2 : HTTPRequest) (ev0 : List Ev)
    (resp : HTTPResponse) (e : Err)
    (h : ReachesTransport baseURL request edit hr2 ev0)
    (h3 : dof hr2 = .ok resp) :
    (Ev.bodyRead ∈ (doCall baseURL dof request edit).trace ↔
      validateResponse resp request = none) ∧
    (validateResponse resp request = some e →
      (doCall baseURL dof request edit).error = some e) ∧
    (statusRejected request resp → contentTypeRejected request resp →
      validateResponse resp request =
        some (.unexpectedStatus resp.statusCode)) := by
  have hev0 : Ev.bodyRead ∉ ev0 := by
    rcases reaches_ev0 h with h0 | h0 <;> rw [h0] <;> simp
  rw [reaches_doCall h dof]
  refine ⟨?_, ?_, ?_⟩
  · rw [transportPhase_ok ev0 h3]
    cases hv : validateResponse resp request with
    | some e2 => simp [List.mem_append, hev0]
    | none => simp [List.mem_append]
  · intro hv
    exact transportPhase_error_of_validate ev0 h3 hv
  · intro hs hc
    exact validateResponse_of_statusRejected hs

def req9 : Request :=
  { method := goStr "GET", path := goStr "/test", headers := [], body := none,
    expectedStatusCodes := [200],
    expectedContentTypes := [goStr "application/json"] }

def resp9 : HTTPResponse :=
  { statusCode := 500,
    headers := [(goStr "Content-Type", [goStr "text/plain"])],
    bodyStream := .ok [123] }

def dof9 : DoFunc := fun _ => .ok resp9

theorem do_validation_before_body_read_witness :
    (Ev.bodyRead ∈ (doCall baseEx dof9 req9 none).trace ↔
      validateResponse resp9 req9 = none) ∧
    (validateResponse resp9 req9 = some (.unexpectedStatus 500) →
      (doCall baseEx dof9 req9 none).error =
        some (.unexpectedStatus 500)) ∧
    (statusRejected req9 resp9 → contentTypeRejected req9 resp9 →
      validateResponse resp9 req9 =
        some (.unexpectedStatus resp9.statusCode)) :=
  do_validation_before_body_read baseEx dof9 req9 none hrG []
    resp9 (.unexpectedStatus 500)
    (ReachesTransport.noEdit hrG (by decide)) rfl

theorem transportPhase_exclusive (dof : DoFunc) (hr2 : HTTPRequest)
    (request : Request) (ev0 : List Ev) :
    ((transportPhase dof hr2 request ev0).response = none ∧
      (transportPhase dof hr2 request ev0).error.isSome) ∨
    ((transportPhase dof hr2 request ev0).response.isSome ∧
      (transportPhase dof hr2 request ev0).error = none) := by
  cases hdo : dof hr2 with
  | error msg =>
    rw [transportPhase_err ev0 hdo]
    simp
  | ok resp =>
    rw [transportPhase_ok ev0 hdo]
    cases hv : validateResponse resp request with
    | some e => simp
    | none =>
      cases hb : resp.bodyStream with
      | error msg => simp [readResponse, hb]
      | ok bytes => simp [readResponse, hb]

/-- C10: every call to Do returns either a response with no error or an error
with no response; no partially populated response ever accompanies an
error. -/
theorem do_result_exclusive (baseURL : GoString) (dof : DoFunc)
    (request : Request) (edit : Option EditRequestFunc) :
    ((doCall baseURL dof request edit).response = none ∧
      (doCall baseURL dof request edit).error.isSome) ∨
    ((doCall baseURL dof request edit).response.isSome ∧
      (doCall baseURL dof request edit).error = none) := by
  unfold doCall
  split
  · simp
  · split
    · exact transportPhase_exclusive _ _ _ _
    · split
      · simp
      · exact transportPhase_exclusive _ _ _ _

/-- C7 (amended): the built request carries at most one entry per canonical
header name, and the entry for a canonical name holds exactly the values of
all supplied keys canonicalizing to it, concatenated in the map's iteration
order with each key's own values kept in their supplied order. -/
theorem build_header_merge
    (baseURL : GoString) (request : Request) (hr : HTTPRequest) (C : GoString)
    (h : buildHTTPRequest baseURL request = .ok hr) :
    ((hr.header.map Prod.fst).Nodup) ∧
    (lookupH C hr.header =
      if suppliedValues request.headers C = [] then none
      else some (suppliedValues request.headers C)) := by
  have hsh := (buildHTTPRequest_ok_shape h).2.1
  rw [hsh]
  exact ⟨nodup_keys_buildHeader _, lookupH_buildHeader _ _⟩

def reqH1 : Request :=
  { method := goStr "GET", path := goStr "/test",
    headers := [(goStr "content-type", [goStr "a"]),
                (goStr "Content-Type", [goStr "b"])],
    body := none, expectedStatusCodes := [], expectedContentTypes := [] }

def reqH2 : Request :=
  { method := goStr "GET", path := goStr "/test",
    headers := [(goStr "Content-Type", [goStr "b"]),
                (goStr "content-type", [goStr "a"])],
    body := none, expectedStatusCodes := [], expectedContentTypes := [] }

def hrH1 : HTTPRequest :=
  { method := goStr "GET", url := goStr "http://example.com/test",
    header := [(goStr "Content-Type", [goStr "a", goStr "b"])], body := none }

def hrH2 : HTTPRequest :=
  { method := goStr "GET", url := goStr "http://example.com/test",
    header := [(goStr "Content-Type", [goStr "b", goStr "a"])], body := none }

theorem build_header_merge_witness :
    buildHTTPRequest baseEx reqH1 = .ok hrH1 ∧
    ((hrH1.header.map Prod.fst).Nodup) ∧
    (lookupH (goStr "Content-Type") hrH1.header =
      if suppliedValues reqH1.headers (goStr "Content-Type") = [] then none
      else some (suppliedValues reqH1.headers (goStr "Content-Type"))) :=
  ⟨by decide,
    build_header_merge baseEx reqH1 hrH1 (goStr "Content-Type") (by decide)⟩

/-- C7 (counterexample): the two header maps below are the same Go map — the
same two case-insensitive-duplicate keys with the same values — presented in
its two possible iteration orders; both merge into a single canonical
Content-Type entry, but the merged value order follows the iteration order,
so it cannot always be the order in which the caller supplied the keys. -/
theorem build_header_order_counterexample :
    reqH1.headers.Perm reqH2.headers ∧
    buildHTTPRequest baseEx reqH1 = .ok hrH1 ∧
    buildHTTPRequest baseEx reqH2 = .ok hrH2 ∧
    lookupH (goStr "Content-Type") hrH1.header =
      some [goStr "a", goStr "b"] ∧
    lookupH (goStr "Content-Type") hrH2.header =
      some [goStr "b", goStr "a"] := by
  refine ⟨?_, by decide, by decide, by decide, by decide⟩
  exact List.Perm.swap _ _ _

end WebApiClient
